import Mathlib

/-!
Verification of the output-parsing and incremental-state layer of the
dotnetprofilerforvscode repository.

Each definition is a shallow embedding of the corresponding TypeScript
function (src/memory.ts, src/monitoring.ts, src/webview.ts).  JavaScript
strings are modelled as Lean `String`s, JavaScript numbers appearing in
the parsers as `Nat`/`Int`/`ℚ` (with remarks where the double-precision
representation could diverge), and `BigInt` as `Nat`.
-/

namespace DotnetProfiler

/-! ## JavaScript character / string helpers -/

/-- The ASCII part of JavaScript's `\s` class (and of `String.prototype.trim`):
space, tab, line feed, carriage return, vertical tab, form feed.
(The non-ASCII whitespace code points do not occur in the tool output
modelled here.) -/
def isJsWs (c : Char) : Bool :=
  c == ' ' || c == '\t' || c == '\n' || c == '\r' ||
  c == Char.ofNat 11 || c == Char.ofNat 12

/-- `'{'` (written via its code point to keep brace characters out of literals). -/
def lbraceChar : Char := Char.ofNat 123

/-- `'}'` -/
def rbraceChar : Char := Char.ofNat 125

/-- apostrophe character -/
def aposChar : Char := Char.ofNat 39

/-- Model of `String.prototype.trim()`. -/
def jsTrim (s : String) : String :=
  ((s.data.dropWhile isJsWs).reverse.dropWhile isJsWs).reverse.asString

/-- character-level split on `'\n'` (keeping empty pieces, like the
JavaScript `split`). -/
def splitLinesChars : List Char → List (List Char)
  | [] => [[]]
  | c :: cs =>
    match splitLinesChars cs with
    | [] => [[]]
    | l :: ls => if c == '\n' then [] :: l :: ls else (c :: l) :: ls

/-- Model of `s.split('\n')`. -/
def splitLines (s : String) : List String := (splitLinesChars s.data).map List.asString

/-- Model of `s.endsWith(post)`. -/
def jsEndsWith (s post : String) : Bool := post.data.isSuffixOf s.data

/-- `0`–`9` (the regex class `\d`). -/
def isDigitChar (c : Char) : Bool := '0' ≤ c && c ≤ '9'

/-- hex digit, case insensitive (the regex class `[0-9a-f]` under the `i` flag). -/
def isHexDigitCI (c : Char) : Bool :=
  isDigitChar c || ('a' ≤ c && c ≤ 'f') || ('A' ≤ c && c ≤ 'F')

/-- lowercase hex digit (the regex class `[0-9a-f]` without `i`). -/
def isHexDigitLower (c : Char) : Bool :=
  isDigitChar c || ('a' ≤ c && c ≤ 'f')

/-- characters matched by the regex `.` (any char except line terminators;
of the line terminators only `\n` and `\r` can appear in the strings here). -/
def isDotChar (c : Char) : Bool := !(c == '\n' || c == '\r')

def hexDigitVal (c : Char) : Nat :=
  if isDigitChar c then c.toNat - '0'.toNat
  else if 'a' ≤ c && c ≤ 'f' then c.toNat - 'a'.toNat + 10
  else if 'A' ≤ c && c ≤ 'F' then c.toNat - 'A'.toNat + 10
  else 0

def hexCharsToNat (cs : List Char) : Nat :=
  cs.foldl (fun acc c => acc * 16 + hexDigitVal c) 0

def decDigitsToNat (cs : List Char) : Nat :=
  cs.foldl (fun acc c => acc * 10 + (c.toNat - '0'.toNat)) 0

/-- Model of `BigInt('0x' + hexValue)`, returning `none` where the JavaScript
conversion throws a `SyntaxError`.  `StringToBigInt` trims surrounding
whitespace of the whole string, so trailing whitespace of `hexValue` is
forgiven; anything else must be a non-empty run of hex digits. -/
def parseHexJs (hexValue : String) : Option Nat :=
  let t := (hexValue.data.reverse.dropWhile isJsWs).reverse
  if t.isEmpty then none
  else if t.all isHexDigitCI then some (hexCharsToNat t) else none

/-- lowercase hex rendering of a `Nat` (JavaScript `n.toString(16)` for `n ≥ 0`). -/
def natToHexString (n : Nat) : String := (Nat.toDigits 16 n).asString

/-- `String.prototype.padStart(4, '0')`. -/
def padStart4 (s : String) : String :=
  if s.length ≥ 4 then s else (List.replicate (4 - s.length) '0').asString ++ s

/-! ## 4.1 Primitive Value Decoder — `parsePrimitiveValue` (src/memory.ts)

The `System.Single` / `System.Double` branches reinterpret the bit pattern
as an IEEE-754 float and render it with JavaScript's number-to-string
algorithm; that rendering is not re-implemented here, so the decoder is
parameterised by the two rendering functions `f32`/`f64` (taking the low
32 / full 64 bits).  None of the claims concern those two branches.

The `Number(value) & mask` idiom is modelled as `value % 2 ^ 32` followed by
the mask; this is exact for values below `2 ^ 53` (above which the
double-precision rounding of `Number(value)` is abstracted away). -/

def isPrimitiveType (typeName : String) : Bool :=
  [ "System.Boolean", "System.Byte", "System.SByte",
    "System.Int16", "System.UInt16", "System.Int32", "System.UInt32",
    "System.Int64", "System.UInt64", "System.Single", "System.Double",
    "System.Char", "System.IntPtr", "System.UIntPtr",
    "Boolean", "Byte", "SByte", "Int16", "UInt16", "Int32", "UInt32",
    "Int64", "UInt64", "Single", "Double", "Char", "IntPtr", "UIntPtr"
  ].contains typeName

def parsePrimitiveValue (f32 f64 : Nat → String) (typeName : String) (hexValue : String) : String :=
  match parseHexJs hexValue with
  | none => "0x" ++ hexValue
  | some value =>
    if typeName == "System.Boolean" || typeName == "Boolean" then
      if value = 0 then "false" else "true"
    else if typeName == "System.Byte" || typeName == "Byte" then
      toString (value % 2 ^ 32 % 256)
    else if typeName == "System.SByte" || typeName == "SByte" then
      let byte : Nat := value % 2 ^ 32 % 256
      toString (if byte > 127 then (byte : Int) - 256 else (byte : Int))
    else if typeName == "System.Int16" || typeName == "Int16" then
      let val : Nat := value % 2 ^ 32 % 65536
      toString (if val > 32767 then (val : Int) - 65536 else (val : Int))
    else if typeName == "System.UInt16" || typeName == "UInt16" then
      toString (value % 2 ^ 32 % 65536)
    else if typeName == "System.Int32" || typeName == "Int32" then
      let val : Nat := value % 2 ^ 32
      toString (if val > 2147483647 then (val : Int) - 4294967296 else (val : Int))
    else if typeName == "System.UInt32" || typeName == "UInt32" then
      toString (value % 2 ^ 32)
    else if typeName == "System.Int64" || typeName == "Int64" then
      if value > 9223372036854775807 then
        toString ((value : Int) - 18446744073709551616)
      else
        toString value
    else if typeName == "System.UInt64" || typeName == "UInt64" then
      toString value
    else if typeName == "System.Single" || typeName == "Single" then
      f32 (value % 2 ^ 32)
    else if typeName == "System.Double" || typeName == "Double" then
      -- `setBigUint64` throws a RangeError for values ≥ 2^64; the catch
      -- falls back to the hex rendering.
      if value < 2 ^ 64 then f64 value else "0x" ++ hexValue
    else if typeName == "System.Char" || typeName == "Char" then
      let charCode := value % 2 ^ 32 % 65536
      if 32 ≤ charCode ∧ charCode < 127 then
        aposChar.toString ++ (Char.ofNat charCode).toString ++ aposChar.toString
      else
        aposChar.toString ++ "\\u" ++ padStart4 (natToHexString charCode) ++ aposChar.toString
    else if typeName == "System.IntPtr" || typeName == "IntPtr" ||
            typeName == "System.UIntPtr" || typeName == "UIntPtr" then
      "0x" ++ hexValue
    else
      "0x" ++ hexValue

/-! ## 4.7 Delta Engine — `computeMemoryDeltas` (src/webview.ts, webview script)

The grid rows handed to `computeMemoryDeltas` are the raw snapshot rows
`{type, count, bytes}`; the function spreads each row and, when a previous
snapshot is present, adds `countDelta` / `bytesDelta` fields.  A JavaScript
object may simply lack those two fields, which is modelled by `Option`
fields defaulting to `none`. -/

structure MemRow where
  type : String
  count : Int
  bytes : Int
  countDelta : Option Int := none
  bytesDelta : Option Int := none
deriving DecidableEq, Repr

/-- `prevMap.set(row.type, row)` over the previous list: later rows with the
same type overwrite earlier ones, so a lookup returns the last match. -/
def prevMapGet (previous : List MemRow) (ty : String) : Option MemRow :=
  match previous with
  | [] => none
  | r :: rest =>
    match prevMapGet rest ty with
    | some r' => some r'
    | none => if r.type == ty then some r else none

def computeMemoryDeltas (current : List MemRow) (previous : Option (List MemRow)) :
    List MemRow :=
  match previous with
  | none => current
  | some prev =>
    current.map fun row =>
      match prevMapGet prev row.type with
      | some p =>
        { row with countDelta := some (row.count - p.count),
                   bytesDelta := some (row.bytes - p.bytes) }
      | none =>
        { row with countDelta := some row.count, bytesDelta := some row.bytes }

/-! ## 4.5 Heap Address Extractor — `parseHeapAddresses` (src/memory.ts)

Regex per line: `^\s*([0-9a-f]+)\s+[0-9a-f]+\s+(\d+)\s*$` with flag `i`.
Hex runs, whitespace runs and digit runs pairwise exclude each other's
characters, so the backtracking search is deterministic: each quantifier
can only take its maximal run. -/

structure HeapObject where
  address : String
  size : Nat
deriving DecidableEq, Repr

def matchHeapAddressLine (line : String) : Option (String × Nat) :=
  let cs := line.data.dropWhile isJsWs
  let g1 := cs.takeWhile isHexDigitCI
  let r1 := cs.dropWhile isHexDigitCI
  if g1.isEmpty then none else
  let w1 := r1.takeWhile isJsWs
  let r2 := r1.dropWhile isJsWs
  if w1.isEmpty then none else
  let h2 := r2.takeWhile isHexDigitCI
  let r3 := r2.dropWhile isHexDigitCI
  if h2.isEmpty then none else
  let w2 := r3.takeWhile isJsWs
  let r4 := r3.dropWhile isJsWs
  if w2.isEmpty then none else
  let g2 := r4.takeWhile isDigitChar
  let r5 := r4.dropWhile isDigitChar
  if g2.isEmpty then none else
  if r5.all isJsWs then some (g1.asString, decDigitsToNat g2) else none

def parseHeapAddresses (output : String) : List HeapObject :=
  (splitLines output).filterMap fun line =>
    (matchHeapAddressLine line).map fun m => { address := m.1, size := m.2 }

/-- The webview message assembled by the `dumpheap` close handler of
`getTypeRoots` (src/memory.ts) once the tool exited with code 0, as a
function of the tool's stdout text. -/
inductive RootsOutcome where
  | noObjects (message : String)
  | result (totalObjects : Nat) (objects : List HeapObject)
deriving DecidableEq, Repr

def getTypeRootsResult (dumpheapOutput : String) : RootsOutcome :=
  let addresses := parseHeapAddresses dumpheapOutput
  if addresses.length = 0 then
    .noObjects "No objects found for this type"
  else
    .result addresses.length (addresses.take 50)

/-! ## 4.4 Heap Type Aggregator — `parseGcDumpOutput` (src/memory.ts) -/

/-- `line.includes(sub)`. -/
def jsIncludes (line sub : String) : Bool :=
  (line.data.tails.any fun t => sub.data.isPrefixOf t)

/-- case-insensitive (ASCII) lowering, for regex flag `i`. -/
def lowerAscii (c : Char) : Char :=
  if 'A' ≤ c ∧ c ≤ 'Z' then Char.ofNat (c.toNat + 32) else c

/-- Does `cs` (the inside of a parenthesis, guaranteed free of `)`) contain
the letters `Bytes` case-insensitively — i.e. does `[^)]*Bytes[^)]*` cover
it for some split? -/
def containsBytesCI (cs : List Char) : Bool :=
  ((cs.map lowerAscii).tails.any fun t => "bytes".data.isPrefixOf t)

/-- Does `cs` match the whole of `\s*\([^)]*Bytes[^)]*\)\s*$` (flag `i`)?
The closing parenthesis of the pattern is necessarily the first `)` after
the `(`, since `[^)]` cannot cross one. -/
def bucketSuffixMatch (cs : List Char) : Bool :=
  match cs.dropWhile isJsWs with
  | '(' :: rest =>
    let inner := rest.takeWhile (fun c => c != ')')
    (match rest.dropWhile (fun c => c != ')') with
     | ')' :: tail => containsBytesCI inner && tail.all isJsWs
     | _ => false)
  | _ => false

/-- `type.replace(/\s*\([^)]*Bytes[^)]*\)\s*$/i, '')`: a (non-global) replace
removes the leftmost match; since every match extends to the end of the
string, this scans for the first position whose suffix matches. -/
def bucketReplaceFrom (acc : List Char) : List Char → List Char
  | [] => acc.reverse ++ []
  | c :: cs =>
    if bucketSuffixMatch (c :: cs) then acc.reverse
    else bucketReplaceFrom (c :: acc) cs

def stripBucketAnn (s : String) : String :=
  (bucketReplaceFrom [] s.data).asString

/-- `A`–`Z` or `a`–`z`. -/
def isAsciiLetter (c : Char) : Bool :=
  ('A' ≤ c && c ≤ 'Z') || ('a' ≤ c && c ≤ 'z')

/-- `\w` or `.` : `[A-Za-z0-9_.]`. -/
def isWordDot (c : Char) : Bool :=
  isAsciiLetter c || isDigitChar c || c == '_' || c == '.'

/-- Does `cs` match the whole of `\s*\[[A-Za-z][\w.]*\]$`? -/
def assemblySuffixMatch (cs : List Char) : Bool :=
  match cs.dropWhile isJsWs with
  | '[' :: c :: rest =>
    isAsciiLetter c &&
    (match rest.dropWhile isWordDot with
     | [']'] => true
     | _ => false)
  | _ => false

/-- The lazy group of `^(.+?)\s*\[[A-Za-z][\w.]*\]$`: the shortest non-empty
prefix (of `.`-matchable characters) whose complement matches the suffix
pattern.  Returns `none` when the whole regex fails. -/
def assemblyMatchFrom (acc : List Char) : List Char → Option (List Char)
  | [] => none
  | c :: cs =>
    if !isDotChar c then none
    else if assemblySuffixMatch cs then some (acc.reverse ++ [c])
    else assemblyMatchFrom (c :: acc) cs

/-- Canonicalise the raw type column text of one data row:
`match[3].trim()`, strip the size-bucket annotation (then `.trim()`), then
strip a trailing assembly bracket via the `^(.+?)\s*\[...\]$` match. -/
def canonGcType (raw : String) : String :=
  let t1 := jsTrim raw
  let t2 := jsTrim (stripBucketAnn t1)
  match assemblyMatchFrom [] t2.data with
  | some base => jsTrim base.asString
  | none => t2

/-- A JavaScript number that is either a `Nat` or `NaN` (`none`); `parseInt`
of an all-comma numeral yields `NaN`, which then propagates through `+=`. -/
def JsNum := Option Nat
deriving DecidableEq, Repr

def jsAdd (a b : JsNum) : JsNum :=
  match a, b with
  | some x, some y => some (x + y)
  | _, _ => none

/-- `parseInt(match.replace(/,/g, ''), 10)` on a string of digits/commas. -/
def parseIntComma (g : List Char) : JsNum :=
  let ds := g.filter fun c => c != ','
  if ds.isEmpty then none else some (decDigitsToNat ds)

def isDigitComma (c : Char) : Bool := isDigitChar c || c == ','

/-- Regex per data row: `^\s*([\d,]+)\s+([\d,]+)\s+(.+)$`.  The numeral and
whitespace classes are disjoint, so the only search freedom is between the
final `\s+` and the greedy `(.+)` (where `.` excludes `\n`/`\r`): `(.+)`
takes everything after the maximal whitespace run if non-empty and free of
line terminators; when the remainder is pure whitespace, `\s+` backs off one
character so `(.+)` can take it. -/
def matchGcDataRow (line : String) : Option (List Char × List Char × List Char) :=
  let cs := line.data.dropWhile isJsWs
  let g1 := cs.takeWhile isDigitComma
  let r1 := cs.dropWhile isDigitComma
  if g1.isEmpty then none else
  let w1 := r1.takeWhile isJsWs
  let r2 := r1.dropWhile isJsWs
  if w1.isEmpty then none else
  let g2 := r2.takeWhile isDigitComma
  let r3 := r2.dropWhile isDigitComma
  if g2.isEmpty then none else
  let w2 := r3.takeWhile isJsWs
  let r4 := r3.dropWhile isJsWs
  if w2.isEmpty then none else
  if r4.isEmpty then
    -- remainder after g2 is all whitespace: `(.+)` can only take the final
    -- character, and only if `.` matches it
    if w2.length ≥ 2 ∧ isDotChar (w2.getLastD ' ') then
      some (g1, g2, [w2.getLastD ' '])
    else none
  else
    if r4.all isDotChar then some (g1, g2, r4) else none

structure GcRow where
  count : JsNum
  bytes : JsNum
  type : String
deriving DecidableEq, Repr

def isGcHeaderLine (line : String) : Bool :=
  jsIncludes line "Object Bytes" && jsIncludes line "Count" && jsIncludes line "Type"

/-- The per-line loop of `parseGcDumpOutput` before aggregation: the header
check runs on every line (even inside the data region) and skips the line;
before the header has been seen everything is skipped; blank lines and rows
that fail the regex are skipped.  `match[1]` is the bytes column, `match[2]`
the count column. -/
def extractGcRows : List String → Bool → List GcRow
  | [], _ => []
  | l :: ls, started =>
    if isGcHeaderLine l then extractGcRows ls true
    else if !started then extractGcRows ls false
    else if jsTrim l == "" then extractGcRows ls true
    else
      match matchGcDataRow l with
      | some (g1, g2, g3) =>
        { count := parseIntComma g2, bytes := parseIntComma g1,
          type := canonGcType g3.asString } :: extractGcRows ls true
      | none => extractGcRows ls true

/-- `typeMap.set` / `+=` on an insertion-ordered map, represented as an
association list of `(type, count, bytes)`. -/
def aggInsert (m : List (String × JsNum × JsNum)) (ty : String) (count bytes : JsNum) :
    List (String × JsNum × JsNum) :=
  match m with
  | [] => [(ty, count, bytes)]
  | (t, c, b) :: rest =>
    if t == ty then (t, jsAdd c count, jsAdd b bytes) :: rest
    else (t, c, b) :: aggInsert rest ty count bytes

structure GcDumpEntry where
  type : String
  count : JsNum
  bytes : JsNum
deriving DecidableEq, Repr

def parseGcDumpOutput (output : String) : List GcDumpEntry :=
  let rows := extractGcRows (splitLines output) false
  (rows.foldl (fun m r => aggInsert m r.type r.count r.bytes) []).map
    fun e => { type := e.1, count := e.2.1, bytes := e.2.2 }

/-! ## 4.3 Object Field Parser — `reformatDumpObjWithTypeResolution` (src/memory.ts) -/

structure RawField where
  mt : String
  field : String
  offset : String
  type : String
  vt : String
  attr : String
  value : String
  name : String
deriving DecidableEq, Repr

/-- case-insensitive prefix test for a lowercase literal under regex flag `i`. -/
def litPrefixCI (lit : List Char) (cs : List Char) : Bool :=
  lit.isPrefixOf (cs.take lit.length |>.map lowerAscii)

/-- The continuation `\s+(\d)\s+(static|instance)\s+([0-9a-f]+)\s+(.+)$` (flag
`i`) of the strict field regex, applied after the lazy type group.  All its
quantifiers are forced: whitespace runs and the classes that follow them are
disjoint, and a shortened hex run would put a hex digit under `\s+`.  The
final `\s+(.+)$` has the same structure as in `matchGcDataRow`. -/
def strictFieldTail (cs : List Char) : Option (String × String × String × String) :=
  let w1 := cs.takeWhile isJsWs
  let r1 := cs.dropWhile isJsWs
  if w1.isEmpty then none else
  match r1 with
  | d :: r2 =>
    if !isDigitChar d then none else
    let w2 := r2.takeWhile isJsWs
    let r3 := r2.dropWhile isJsWs
    if w2.isEmpty then none else
    let attrLen : Nat :=
      if litPrefixCI "static".data r3 then 6
      else if litPrefixCI "instance".data r3 then 8
      else 0
    if attrLen = 0 then none else
    let attr := r3.take attrLen
    let r4 := r3.drop attrLen
    let w3 := r4.takeWhile isJsWs
    let r5 := r4.dropWhile isJsWs
    if w3.isEmpty then none else
    let v := r5.takeWhile isHexDigitCI
    let r6 := r5.dropWhile isHexDigitCI
    if v.isEmpty then none else
    let w4 := r6.takeWhile isJsWs
    let r7 := r6.dropWhile isJsWs
    if w4.isEmpty then none else
    if r7.isEmpty then
      if w4.length ≥ 2 ∧ isDotChar (w4.getLastD ' ') then
        some (d.toString, attr.asString, v.asString, (w4.getLastD ' ').toString)
      else none
    else
      if r7.all isDotChar then some (d.toString, attr.asString, v.asString, r7.asString)
      else none
  | [] => none

/-- The lazy search for the type group `(.+?)`: the shortest non-empty run of
`.`-characters after which `strictFieldTail` succeeds. -/
def strictTypeSearch (acc : List Char) : List Char → Option (List Char × String × String × String × String)
  | [] => none
  | c :: cs =>
    if !isDotChar c then none
    else
      match strictFieldTail cs with
      | some t => some (acc.reverse ++ [c], t.1, t.2.1, t.2.2.1, t.2.2.2)
      | none => strictTypeSearch (c :: acc) cs

/-- A `\s+` quantifier standing directly before a lazy `(.+?)` group can give
characters back: the engine first tries the maximal whitespace run, then
shorter runs (leaving trailing whitespace characters to the lazy group).
`wsRev` holds the donatable whitespace characters, last-first. -/
def lazyWithWsBacktrack {α : Type} (search : List Char → Option α) :
    List Char → List Char → Option α
  | wsRev, text =>
    match search text with
    | some r => some r
    | none =>
      match wsRev with
      | [] => none
      | c :: wsRev' => lazyWithWsBacktrack search wsRev' (c :: text)

/-- The strict per-line grammar
`^([0-9a-f]+)\s+([0-9a-f]+)\s+([0-9a-f]+)\s+(.+?)\s+(\d)\s+(static|instance)\s+([0-9a-f]+)\s+(.+)$`
(flag `i`).  The three leading hex groups and their separators are
deterministic (hex and whitespace are disjoint classes); the `\s+` before the
lazy type group backtracks. -/
def strictFieldMatch (line : String) : Option RawField :=
  let cs := line.data
  let h1 := cs.takeWhile isHexDigitCI
  let r1 := cs.dropWhile isHexDigitCI
  if h1.isEmpty then none else
  let w1 := r1.takeWhile isJsWs
  let r2 := r1.dropWhile isJsWs
  if w1.isEmpty then none else
  let h2 := r2.takeWhile isHexDigitCI
  let r3 := r2.dropWhile isHexDigitCI
  if h2.isEmpty then none else
  let w2 := r3.takeWhile isJsWs
  let r4 := r3.dropWhile isJsWs
  if w2.isEmpty then none else
  let h3 := r4.takeWhile isHexDigitCI
  let r5 := r4.dropWhile isHexDigitCI
  if h3.isEmpty then none else
  let w3 := r5.takeWhile isJsWs
  let r6 := r5.dropWhile isJsWs
  if w3.isEmpty then none else
  match lazyWithWsBacktrack (strictTypeSearch []) ((w3.drop 1).reverse) r6 with
  | some (ty, vt, attr, value, name) =>
    some { mt := h1.asString, field := h2.asString, offset := h3.asString,
           type := jsTrim ty.asString, vt := vt, attr := attr,
           value := value, name := jsTrim name }
  | none => none

/-- `line.trim().split(/\s+/)` on a non-blank line: the maximal runs of
non-whitespace characters. -/
def splitWsTokens (line : String) : List String :=
  (((jsTrim line).data.splitOnP isJsWs).filter (fun t => !t.isEmpty)).map List.asString

/-- The whitespace-tokenising fallback: first three tokens are mt/field/offset,
last four are vt/attr/value/name, the middle (if any) joined by single spaces
is the type. -/
def fallbackFieldMatch (line : String) : Option RawField :=
  let parts := splitWsTokens line
  if parts.length ≥ 7 then
    let middle := (parts.drop 3).dropLast.dropLast.dropLast.dropLast
    some { mt := parts.getD 0 "", field := parts.getD 1 "", offset := parts.getD 2 "",
           type := if middle.isEmpty then "(unknown)" else String.intercalate " " middle,
           vt := parts.getD (parts.length - 4) "",
           attr := parts.getD (parts.length - 3) "",
           value := parts.getD (parts.length - 2) "",
           name := parts.getD (parts.length - 1) "" }
  else none

/-- The column-header detector inside the fields region. -/
def isFieldColHeader (line : String) : Bool :=
  jsIncludes line "MT" && jsIncludes line "Field" &&
  jsIncludes line "Offset" && jsIncludes line "Type"

/-- The line loop of `reformatDumpObjWithTypeResolution`: header lines before
the `Fields:` marker, raw field rows after it. -/
def dumpObjSplit : List String → Bool → List String × List RawField
  | [], _ => ([], [])
  | l :: ls, inFields =>
    if jsTrim l == "Fields:" then dumpObjSplit ls true
    else if inFields then
      if isFieldColHeader l then dumpObjSplit ls true
      else
        match strictFieldMatch l with
        | some f =>
          let rest := dumpObjSplit ls true
          (rest.1, f :: rest.2)
        | none =>
          if jsTrim l == "" then dumpObjSplit ls true
          else
            match fallbackFieldMatch l with
            | some f =>
              let rest := dumpObjSplit ls true
              (rest.1, f :: rest.2)
            | none => dumpObjSplit ls true
    else
      let rest := dumpObjSplit ls false
      (l :: rest.1, rest.2)

/-- regex `^0+$`: non-empty and all zeros. -/
def isAllZeroStr (s : String) : Bool :=
  !s.data.isEmpty && s.data.all (fun c => c == '0')

/-- regex `^[0-9a-f]+$` with flag `i`: non-empty and all hex digits. -/
def isHexStr (s : String) : Bool :=
  !s.data.isEmpty && s.data.all isHexDigitCI

structure DumpObjField where
  name : String
  type : String
  value : String
  displayValue : Option String
  isStatic : Bool
  offset : String
  isReference : Bool
  isPrimitive : Bool
deriving DecidableEq, Repr

/-- `mtToType.get(f.mt) || f.type`.  The resolution map is only ever populated
for method-table addresses that are not all zeros (`uniqueMTs` filter), which
the guard reproduces; the map itself comes from external `dumpmt` invocations
and is therefore a parameter of the model. -/
def resolveFieldType (mtToType : List (String × String)) (f : RawField) : String :=
  if isAllZeroStr f.mt then f.type
  else
    match mtToType.lookup f.mt with
    | some t => t
    | none => f.type

/-- The per-row classification in `reformatDumpObjWithTypeResolution`. -/
def mkDumpField (f32 f64 : Nat → String) (mtToType : List (String × String))
    (f : RawField) : DumpObjField :=
  let resolvedType := resolveFieldType mtToType f
  let isStatic := f.attr == "static"
  let isPrim := isPrimitiveType resolvedType
  let isReference := !isPrim && f.vt == "0" &&
    !(isAllZeroStr f.value) && isHexStr f.value
  let displayValue :=
    if isPrim then some (parsePrimitiveValue f32 f64 resolvedType f.value) else none
  { name := f.name, type := resolvedType, value := f.value,
    displayValue := displayValue, isStatic := isStatic, offset := f.offset,
    isReference := isReference, isPrimitive := isPrim }

structure DumpObjResult where
  header : List String
  fields : List DumpObjField
deriving DecidableEq, Repr

/-- The pure part of `reformatDumpObjWithTypeResolution` (the concurrent
`resolveMethodTableType` calls are external `dotnet-dump` invocations,
represented by the `mtToType` association list they produce). -/
def reformatDumpObjWithTypeRes (f32 f64 : Nat → String) (lines : List String)
    (mtToType : List (String × String)) : DumpObjResult :=
  let split := dumpObjSplit lines false
  { header := split.1, fields := split.2.map (mkDumpField f32 f64 mtToType) }

/-! ## 4.6 CPU Hot-Path Extractor — `parseCpuTraceOutput` (src/webview.ts)

Regex per line: `^\d+\.\s+(.+?)\s{2,}([\d.]+)%\s+([\d.]+)%` (no end anchor).
Percentages are JavaScript `parseFloat` results; these are decimal literals,
modelled exactly in `ℚ` (`none` for `NaN`; the IEEE-754 rounding of the
decimal value is abstracted away). -/

def isNumDotChar (c : Char) : Bool := isDigitChar c || c == '.'

/-- `parseFloat` restricted to the `[0-9.]*` strings the match produces: the
longest prefix of the form `digits [ '.' digits ]`, `NaN` when there are no
digits at all before a possible second dot. -/
def parseFloatQ (s : String) : Option ℚ :=
  let intPart := s.data.takeWhile isDigitChar
  let r1 := s.data.drop intPart.length
  match r1 with
  | '.' :: r2 =>
    let fracPart := r2.takeWhile isDigitChar
    if intPart.isEmpty ∧ fracPart.isEmpty then none
    else some ((decDigitsToNat intPart : ℚ) +
               (decDigitsToNat fracPart : ℚ) / (10 : ℚ) ^ fracPart.length)
  | _ =>
    if intPart.isEmpty then none else some (decDigitsToNat intPart : ℚ)

/-- The tail `\s{2,}([\d.]+)%\s+([\d.]+)%` of the CPU regex at a given
position.  Each quantifier is forced to its maximal run because whitespace,
`[\d.]` and `%` are pairwise disjoint. -/
def cpuTailMatch (cs : List Char) : Option (String × String) :=
  let w1 := cs.takeWhile isJsWs
  let r1 := cs.dropWhile isJsWs
  if w1.length < 2 then none else
  let g2 := r1.takeWhile isNumDotChar
  let r2 := r1.dropWhile isNumDotChar
  if g2.isEmpty then none else
  match r2 with
  | '%' :: r3 =>
    let w2 := r3.takeWhile isJsWs
    let r4 := r3.dropWhile isJsWs
    if w2.isEmpty then none else
    let g3 := r4.takeWhile isNumDotChar
    let r5 := r4.dropWhile isNumDotChar
    if g3.isEmpty then none else
    match r5 with
    | '%' :: _ => some (g2.asString, g3.asString)
    | _ => none
  | _ => none

/-- The lazy function-name group `(.+?)`: shortest non-empty run of
`.`-characters after which the percentage tail matches. -/
def cpuNameSearch (acc : List Char) : List Char → Option (String × String × String)
  | [] => none
  | c :: cs =>
    if !isDotChar c then none
    else
      match cpuTailMatch cs with
      | some t => some ((acc.reverse ++ [c]).asString, t.1, t.2)
      | none => cpuNameSearch (c :: acc) cs

def matchCpuLine (line : String) : Option (String × String × String) :=
  let cs := line.data
  let d := cs.takeWhile isDigitChar
  let r1 := cs.drop d.length
  if d.isEmpty then none else
  match r1 with
  | '.' :: r2 =>
    let w := r2.takeWhile isJsWs
    let r3 := r2.dropWhile isJsWs
    if w.isEmpty then none
    else lazyWithWsBacktrack (cpuNameSearch []) ((w.drop 1).reverse) r3
  | _ => none

structure CpuTraceEntry where
  function : String
  inclusivePercent : Option ℚ
  exclusivePercent : Option ℚ
deriving DecidableEq, Repr

/-- One line of the top-N report as an output entry (`none` for skipped
lines): match the ranked-row grammar, trim the function name, drop the two
aggregate/idle bucket labels. -/
def cpuLineEntry (line : String) : Option CpuTraceEntry :=
  match matchCpuLine line with
  | some (g1, g2, g3) =>
    let funcName := jsTrim g1
    if funcName == "(Non-Activities)" || funcName == "Threads" then none
    else some { function := funcName,
                inclusivePercent := parseFloatQ g2,
                exclusivePercent := parseFloatQ g3 }
  | none => none

/-- The line loop of `parseCpuTraceOutput`, pushing entries in line order. -/
def parseCpuTraceLines : List String → List CpuTraceEntry
  | [] => []
  | l :: ls =>
    match cpuLineEntry l with
    | some e => e :: parseCpuTraceLines ls
    | none => parseCpuTraceLines ls

def parseCpuTraceOutput (output : String) : List CpuTraceEntry :=
  parseCpuTraceLines (splitLines output)

/-! ## 4.8 Counter Stream Reader — `startFilePolling` / `parseAndUpdateChart`
(src/monitoring.ts)

`JSON.parse` is modelled by a character-level pushdown automaton for the
ECMA-404 grammar (ordinary JSON: strings with escapes, numbers, literals,
arrays, objects; objects keep their members in document order, with a
last-occurrence lookup reproducing the overwrite semantics of duplicate
keys).  JSON numbers are read exactly into `ℚ`; the IEEE-754 rounding that
`JSON.parse` applies afterwards is abstracted away (no claim depends on it). -/

inductive JsonVal where
  | null
  | bool (b : Bool)
  | num (q : ℚ)
  | str (s : String)
  | arr (elems : List JsonVal)
  | obj (members : List (String × JsonVal))

/-- a partially built array or object (`key` is the member currently open). -/
inductive JFrame where
  | arrF (acc : List JsonVal)
  | objF (acc : List (String × JsonVal)) (key : String)

/-- parser mode.  `v…` modes expect a value (`vArrFresh` directly after `[`,
where `]` is still allowed; `vArrComma` after a `,` in an array, where it is
not), `doneIn`/`doneTop` follow a completed value, `o…` modes handle object
keys, `s…` string bodies, `n…` number bodies, `l…` the literals
`true`/`false`/`null` character by character. -/
inductive JMode where
  | vTop
  | vArrFresh
  | vArrComma
  | vColon
  | doneIn
  | doneTop (v : JsonVal)
  | oFresh
  | oComma
  | oColon (key : String)
  | sIn (isKey : Bool) (acc : List Char)
  | sEsc (isKey : Bool) (acc : List Char)
  | sHex (isKey : Bool) (acc : List Char) (pend : List Char) (need : Nat)
  | nMinus (acc : List Char)
  | nZero (acc : List Char)
  | nInt (acc : List Char)
  | nDot (acc : List Char)
  | nFrac (acc : List Char)
  | nExp (acc : List Char)
  | nExpS (acc : List Char)
  | nExpD (acc : List Char)
  | lT1 | lT2 | lT3
  | lF1 | lF2 | lF3 | lF4
  | lN1 | lN2 | lN3

structure JState where
  mode : JMode
  stack : List JFrame

/-- JSON's insignificant whitespace (strictly smaller than JavaScript `\s`). -/
def isJsonWs (c : Char) : Bool :=
  c == ' ' || c == '\t' || c == '\n' || c == '\r'

/-- exponent part of a JSON number literal. -/
def numExpVal (cs : List Char) : Int :=
  match cs with
  | 'e' :: r | 'E' :: r =>
    (match r with
     | '+' :: d => (decDigitsToNat (d.takeWhile isDigitChar) : Int)
     | '-' :: d => -(decDigitsToNat (d.takeWhile isDigitChar) : Int)
     | d => (decDigitsToNat (d.takeWhile isDigitChar) : Int))
  | _ => 0

/-- exact rational value of a JSON number literal. -/
def numValQ (cs : List Char) : ℚ :=
  let sgn : ℚ := if cs.headD ' ' == '-' then -1 else 1
  let cs1 := if cs.headD ' ' == '-' then cs.drop 1 else cs
  let ip := cs1.takeWhile isDigitChar
  let r1 := cs1.drop ip.length
  let fp := match r1 with
    | '.' :: r => r.takeWhile isDigitChar
    | _ => []
  let r2 := match r1 with
    | '.' :: r => r.drop (r.takeWhile isDigitChar).length
    | _ => r1
  let e := numExpVal r2
  let mant : ℚ := (decDigitsToNat ip : ℚ) + (decDigitsToNat fp : ℚ) / (10 : ℚ) ^ fp.length
  sgn * (if 0 ≤ e then mant * (10 : ℚ) ^ e.toNat else mant / (10 : ℚ) ^ (-e).toNat)

/-- attach a completed value to the enclosing partial structure. -/
def finishValue (v : JsonVal) (stack : List JFrame) : JState :=
  match stack with
  | [] => ⟨.doneTop v, []⟩
  | .arrF acc :: rest => ⟨.doneIn, .arrF (v :: acc) :: rest⟩
  | .objF acc key :: rest => ⟨.doneIn, .objF ((key, v) :: acc) key :: rest⟩

/-- step from `doneIn`: a separator or a closing bracket of the innermost
structure. -/
def stepDone (stack : List JFrame) (c : Char) : Option JState :=
  if isJsonWs c then some ⟨.doneIn, stack⟩
  else if c == ',' then
    match stack with
    | .arrF _ :: _ => some ⟨.vArrComma, stack⟩
    | .objF _ _ :: _ => some ⟨.oComma, stack⟩
    | [] => none
  else if c == ']' then
    match stack with
    | .arrF acc :: rest => some (finishValue (.arr acc.reverse) rest)
    | _ => none
  else if c == rbraceChar then
    match stack with
    | .objF acc _ :: rest => some (finishValue (.obj acc.reverse) rest)
    | _ => none
  else none

/-- step from the state a `finishValue` produced. -/
def stepAfter (st : JState) (c : Char) : Option JState :=
  match st.mode with
  | .doneIn => stepDone st.stack c
  | .doneTop v => if isJsonWs c then some ⟨.doneTop v, st.stack⟩ else none
  | _ => none

/-- a complete number literal is terminated by the character after it, which
is then reinterpreted in the resulting after-value state. -/
def numDone (acc : List Char) (stack : List JFrame) (c : Char) : Option JState :=
  stepAfter (finishValue (.num (numValQ acc.reverse)) stack) c

/-- step from a value-expecting mode (`allowClose` only for `vArrFresh`). -/
def stepValueStart (m : JMode) (stack : List JFrame) (c : Char) (allowClose : Bool) :
    Option JState :=
  if isJsonWs c then some ⟨m, stack⟩
  else if c == '\"' then some ⟨.sIn false [], stack⟩
  else if c == lbraceChar then some ⟨.oFresh, .objF [] "" :: stack⟩
  else if c == '[' then some ⟨.vArrFresh, .arrF [] :: stack⟩
  else if c == '-' then some ⟨.nMinus [c], stack⟩
  else if c == '0' then some ⟨.nZero [c], stack⟩
  else if isDigitChar c then some ⟨.nInt [c], stack⟩
  else if c == 't' then some ⟨.lT1, stack⟩
  else if c == 'f' then some ⟨.lF1, stack⟩
  else if c == 'n' then some ⟨.lN1, stack⟩
  else if allowClose && c == ']' then
    match stack with
    | .arrF acc :: rest => some (finishValue (.arr acc.reverse) rest)
    | _ => none
  else none

def escChar (c : Char) : Option Char :=
  if c == '\"' then some '\"'
  else if c == '\\' then some '\\'
  else if c == '/' then some '/'
  else if c == 'b' then some (Char.ofNat 8)
  else if c == 'f' then some (Char.ofNat 12)
  else if c == 'n' then some '\n'
  else if c == 'r' then some '\r'
  else if c == 't' then some '\t'
  else none

/-- one character of `JSON.parse`.  (A `\uXXXX` escape denoting a lone
surrogate half is not a Unicode scalar value; `Char.ofNat` maps it to `\0`,
a divergence from UTF-16 semantics no claim touches.) -/
def jstep (st : JState) (c : Char) : Option JState :=
  match st.mode with
  | .vTop => stepValueStart .vTop st.stack c false
  | .vArrFresh => stepValueStart .vArrFresh st.stack c true
  | .vArrComma => stepValueStart .vArrComma st.stack c false
  | .vColon => stepValueStart .vColon st.stack c false
  | .doneIn => stepDone st.stack c
  | .doneTop v => if isJsonWs c then some ⟨.doneTop v, st.stack⟩ else none
  | .oFresh =>
    if isJsonWs c then some st
    else if c == '\"' then some ⟨.sIn true [], st.stack⟩
    else if c == rbraceChar then
      match st.stack with
      | .objF acc _ :: rest => some (finishValue (.obj acc.reverse) rest)
      | _ => none
    else none
  | .oComma =>
    if isJsonWs c then some st
    else if c == '\"' then some ⟨.sIn true [], st.stack⟩
    else none
  | .oColon key =>
    if isJsonWs c then some st
    else if c == ':' then
      match st.stack with
      | .objF acc _ :: rest => some ⟨.vColon, .objF acc key :: rest⟩
      | _ => none
    else none
  | .sIn isKey acc =>
    if c == '\"' then
      if isKey then some ⟨.oColon acc.reverse.asString, st.stack⟩
      else some (finishValue (.str acc.reverse.asString) st.stack)
    else if c == '\\' then some ⟨.sEsc isKey acc, st.stack⟩
    else if c.toNat < 32 then none
    else some ⟨.sIn isKey (c :: acc), st.stack⟩
  | .sEsc isKey acc =>
    if c == 'u' then some ⟨.sHex isKey acc [] 4, st.stack⟩
    else
      match escChar c with
      | some e => some ⟨.sIn isKey (e :: acc), st.stack⟩
      | none => none
  | .sHex isKey acc pend need =>
    if isHexDigitCI c then
      if need ≤ 1 then
        some ⟨.sIn isKey (Char.ofNat (hexCharsToNat (pend ++ [c])) :: acc), st.stack⟩
      else some ⟨.sHex isKey acc (pend ++ [c]) (need - 1), st.stack⟩
    else none
  | .nMinus acc =>
    if c == '0' then some ⟨.nZero (c :: acc), st.stack⟩
    else if isDigitChar c then some ⟨.nInt (c :: acc), st.stack⟩
    else none
  | .nZero acc =>
    if c == '.' then some ⟨.nDot (c :: acc), st.stack⟩
    else if c == 'e' || c == 'E' then some ⟨.nExp (c :: acc), st.stack⟩
    else if isDigitChar c then none
    else numDone acc st.stack c
  | .nInt acc =>
    if isDigitChar c then some ⟨.nInt (c :: acc), st.stack⟩
    else if c == '.' then some ⟨.nDot (c :: acc), st.stack⟩
    else if c == 'e' || c == 'E' then some ⟨.nExp (c :: acc), st.stack⟩
    else numDone acc st.stack c
  | .nDot acc =>
    if isDigitChar c then some ⟨.nFrac (c :: acc), st.stack⟩ else none
  | .nFrac acc =>
    if isDigitChar c then some ⟨.nFrac (c :: acc), st.stack⟩
    else if c == 'e' || c == 'E' then some ⟨.nExp (c :: acc), st.stack⟩
    else numDone acc st.stack c
  | .nExp acc =>
    if c == '+' || c == '-' then some ⟨.nExpS (c :: acc), st.stack⟩
    else if isDigitChar c then some ⟨.nExpD (c :: acc), st.stack⟩
    else none
  | .nExpS acc =>
    if isDigitChar c then some ⟨.nExpD (c :: acc), st.stack⟩ else none
  | .nExpD acc =>
    if isDigitChar c then some ⟨.nExpD (c :: acc), st.stack⟩
    else numDone acc st.stack c
  | .lT1 => if c == 'r' then some ⟨.lT2, st.stack⟩ else none
  | .lT2 => if c == 'u' then some ⟨.lT3, st.stack⟩ else none
  | .lT3 => if c == 'e' then some (finishValue (.bool true) st.stack) else none
  | .lF1 => if c == 'a' then some ⟨.lF2, st.stack⟩ else none
  | .lF2 => if c == 'l' then some ⟨.lF3, st.stack⟩ else none
  | .lF3 => if c == 's' then some ⟨.lF4, st.stack⟩ else none
  | .lF4 => if c == 'e' then some (finishValue (.bool false) st.stack) else none
  | .lN1 => if c == 'u' then some ⟨.lN2, st.stack⟩ else none
  | .lN2 => if c == 'l' then some ⟨.lN3, st.stack⟩ else none
  | .lN3 => if c == 'l' then some (finishValue .null st.stack) else none

/-- acceptance at end of input (a number literal may end with the input). -/
def jfinish (st : JState) : Option JsonVal :=
  match st.mode, st.stack with
  | .doneTop v, [] => some v
  | .nZero acc, [] => some (.num (numValQ acc.reverse))
  | .nInt acc, [] => some (.num (numValQ acc.reverse))
  | .nFrac acc, [] => some (.num (numValQ acc.reverse))
  | .nExpD acc, [] => some (.num (numValQ acc.reverse))
  | _, _ => none

def jrun : Option JState → List Char → Option JState
  | none, _ => none
  | some st, [] => some st
  | some st, c :: cs => jrun (jstep st c) cs

/-- model of `JSON.parse` (as an `Option`, `none` for a `SyntaxError`). -/
def jsonParse (s : String) : Option JsonVal :=
  (jrun (some ⟨.vTop, []⟩) s.data).bind jfinish

/-- `json.replace(/,\s*$/, '')`: a match is a comma followed by pure
whitespace up to the end, so the leftmost (and only possible) match starts at
the last comma, provided only whitespace follows it. -/
def stripTrailingCommaWs (s : String) : String :=
  let r2 := s.data.reverse.dropWhile isJsWs
  if r2.headD ' ' == ',' then r2.tail.reverse.asString else s

/-- the recovery transform of `parseAndUpdateChart`: append the closing
`]`-brace pair unless the trimmed content already ends with it, stripping a
trailing comma first. -/
def recoverCounterJson (content : String) : String :=
  if jsEndsWith (jsTrim content) "]\x7d" then content
  else stripTrailingCommaWs content ++ "]\x7d"

/-- last-occurrence member lookup (duplicate keys in a JSON text overwrite). -/
def objLookupLast (members : List (String × JsonVal)) (key : String) : Option JsonVal :=
  match members with
  | [] => none
  | (k, v) :: rest =>
    match objLookupLast rest key with
    | some v' => some v'
    | none => if k == key then some v else none

def getJField (v : JsonVal) (key : String) : Option JsonVal :=
  match v with
  | .obj ms => objLookupLast ms key
  | _ => none

/-- `event.timestamp ? event.timestamp.substring(0, 19) : 'unknown'`.
(The counter tool emits string timestamps; a non-string truthy value would
throw inside the surrounding try block.) -/
def eventTimestampKey (e : JsonVal) : String :=
  match getJField e "timestamp" with
  | some (.str s) => if s.isEmpty then "unknown" else (s.data.take 19).asString
  | _ => "unknown"

def eventName (e : JsonVal) : Option String :=
  match getJField e "name" with
  | some (.str s) => some s
  | _ => none

/-- `event.value`; the tool contract (spec §6) makes values numeric, a
non-numeric value is abstracted to 0. -/
def eventValueQ (e : JsonVal) : ℚ :=
  match getJField e "value" with
  | some (.num q) => q
  | _ => 0

/-- `Map` grouping in insertion order; `push` appends within a group. -/
def groupInsertTs (groups : List (String × List JsonVal)) (ts : String) (e : JsonVal) :
    List (String × List JsonVal) :=
  match groups with
  | [] => [(ts, [e])]
  | (k, es) :: rest =>
    if k == ts then (k, es ++ [e]) :: rest
    else (k, es) :: groupInsertTs rest ts e

def groupByTimestamp (events : List JsonVal) : List (String × List JsonVal) :=
  events.foldl (fun gs e => groupInsertTs gs (eventTimestampKey e) e) []

structure CounterSample where
  cpu : ℚ
  memory : ℚ
  gcHeap : ℚ
  timestamp : String
deriving DecidableEq, Repr

/-- `extractMetrics` (src/monitoring.ts): within a timestamp batch the last
event seen for each of the three metric names wins. -/
def extractMetrics (events : List JsonVal) (timestamp : String) : CounterSample :=
  events.foldl
    (fun m e =>
      match eventName e with
      | some n =>
        if n == "CPU Usage (%)" then { m with cpu := eventValueQ e }
        else if n == "Working Set (MB)" then { m with memory := eventValueQ e }
        else if n == "GC Heap Size (MB)" then { m with gcHeap := eventValueQ e }
        else m
      | none => m)
    { cpu := 0, memory := 0, gcHeap := 0, timestamp := timestamp }

/-- the body of `parseAndUpdateChart` after a successful parse: emit one
sample per new timestamp batch, suppressing all-zero samples; the event
count is only advanced when `Events` is an array longer than the last count.
(`data.Events` of a non-array shape is abstracted to the skip branch.) -/
def processCounterEvents (data : JsonVal) (lastEventCount : Nat) :
    List CounterSample × Nat :=
  match getJField data "Events" with
  | some (.arr events) =>
    if lastEventCount < events.length then
      let newEvents := events.drop lastEventCount
      let groups := groupByTimestamp newEvents
      ((groups.map fun g => extractMetrics g.2 g.1).filter
         (fun m => m.cpu > 0 || m.memory > 0 || m.gcHeap > 0),
       events.length)
    else ([], lastEventCount)
  | _ => ([], lastEventCount)

/-- `parseAndUpdateChart` as a function from the file content and the event
count to the emitted samples and the new event count; the catch block around
`JSON.parse` turns a failed parse into no emission and no state change. -/
def parseAndUpdateChart (content : String) (lastEventCount : Nat) :
    List CounterSample × Nat :=
  match jsonParse (recoverCounterJson content) with
  | none => ([], lastEventCount)
  | some data => processCounterEvents data lastEventCount

/-- the per-tick state of `startFilePolling`. -/
structure PollState where
  lastFileSize : Nat
  lastEventCount : Nat
deriving DecidableEq, Repr

/-- one tick of the polling interval: `content = none` models a missing
file; otherwise the file is re-read and only a strictly grown content is
parsed.  (`content.length` is the JavaScript UTF-16 length; for the ASCII
output of the counter tool it coincides with the scalar count used here.) -/
def pollTick (st : PollState) (content : Option String) : PollState × List CounterSample :=
  match content with
  | none => (st, [])
  | some c =>
    if c.length > st.lastFileSize then
      let r := parseAndUpdateChart c st.lastEventCount
      ({ lastFileSize := c.length, lastEventCount := r.2 }, r.1)
    else (st, [])

/-- a whole session of ticks. -/
def runPollTicks (st : PollState) : List (Option String) → PollState
  | [] => st
  | c :: cs => runPollTicks (pollTick st c).1 cs

/-! ## Specification-side definitions used in theorem statements -/

/-- sum of the count column over a list of parsed rows (`NaN`-propagating). -/
def jsSumCounts (rows : List GcRow) : JsNum :=
  rows.foldr (fun r acc => jsAdd r.count acc) (some 0)

/-- sum of the bytes column over a list of parsed rows (`NaN`-propagating). -/
def jsSumBytes (rows : List GcRow) : JsNum :=
  rows.foldr (fun r acc => jsAdd r.bytes acc) (some 0)

/-- a `dumpheap` output with 51 data rows, for exercising the 50-entry cap. -/
def heapScan51 : String :=
  String.intercalate "\n" (List.replicate 51 "7f01 7f02 8")

/-- a `gcdump report` output with two size-bucket rows of one logical type. -/
def gcReportExample : String :=
  "GC Heap Size\n Object Bytes   Count  Type\n  2,048   2  Foo[] (Bytes > 1K)\n  1,024   1  Foo[] (Bytes > 100K)\n"

/-- an object-dump fields region whose single row declares a primitive type
with value-kind flag 0 and a non-zero hex value. -/
def dumpObjPrimitiveLines : List String :=
  ["Fields:", "00007f 001a 8 System.Int64 0 instance 7f8d1234 myField"]

/-- a counter file captured mid-write: it is missing exactly its trailing
`]`-brace closing sequence, yet its trimmed text happens to end with the two
characters `]` and closing brace already. -/
def counterFileTruncated : String := "\x7b\"Events\":[\x7b\"x\":[]\x7d"

/-! # Theorems -/

/-! ## Generic helper lemmas -/

theorem jsWs_cases {c : Char} (hc : isJsWs c = true) :
    c = ' ' ∨ c = '\t' ∨ c = '\n' ∨ c = '\r' ∨ c = Char.ofNat 11 ∨ c = Char.ofNat 12 := by
  simp only [isJsWs, Bool.or_eq_true, beq_iff_eq] at hc
  tauto

theorem jsAdd_assoc (a b c : JsNum) : jsAdd (jsAdd a b) c = jsAdd a (jsAdd b c) := by
  cases a <;> cases b <;> cases c <;> simp [jsAdd, Nat.add_assoc]

theorem jsAdd_zero_right (a : JsNum) : jsAdd a (some 0) = a := by
  cases a <;> simp [jsAdd]

/-! ## C1 — delta computation against an absent previous snapshot -/

/-- C1 (counterexample): `computeMemoryDeltas(current, null)` does not return
rows whose `countDelta` equals their own `count`: with no previous snapshot
the rows are returned as they are, and they carry no delta fields at all. -/
theorem c1_absent_prev_counterexample :
    ¬ (∀ row ∈ computeMemoryDeltas [{ type := "A", count := 3, bytes := 10 }] none,
        row.countDelta = some row.count ∧ row.bytesDelta = some row.bytes) := by
  decide

/-- C1 (amended): against an absent previous snapshot `computeMemoryDeltas`
returns the current rows unchanged (no delta fields are set); a row receives
`countDelta` equal to its own `count` and `bytesDelta` equal to its own
`bytes` exactly in the other branch, when a previous snapshot is present but
does not contain the row's type. -/
theorem c1_absent_prev_amended (current : List MemRow) (prev : List MemRow) :
    computeMemoryDeltas current none = current ∧
    (∀ r ∈ current, prevMapGet prev r.type = none →
      { r with countDelta := some r.count, bytesDelta := some r.bytes } ∈
        computeMemoryDeltas current (some prev)) := by
  constructor
  · rfl
  · intro r hr hnone
    have : computeMemoryDeltas current (some prev) =
        current.map fun row =>
          match prevMapGet prev row.type with
          | some p =>
            { row with countDelta := some (row.count - p.count),
                       bytesDelta := some (row.bytes - p.bytes) }
          | none =>
            { row with countDelta := some row.count, bytesDelta := some row.bytes } := rfl
    rw [this]
    refine List.mem_map.mpr ⟨r, hr, ?_⟩
    rw [hnone]

theorem c1_absent_prev_amended_witness :
    computeMemoryDeltas [{ type := "A", count := 3, bytes := 10 }] none =
      [{ type := "A", count := 3, bytes := 10 }] ∧
    ({ type := "A", count := 3, bytes := 10, countDelta := some 3,
       bytesDelta := some 10 } : MemRow) ∈
      computeMemoryDeltas [{ type := "A", count := 3, bytes := 10 }] (some []) := by
  refine ⟨(c1_absent_prev_amended [{ type := "A", count := 3, bytes := 10 }] []).1, ?_⟩
  exact (c1_absent_prev_amended [{ type := "A", count := 3, bytes := 10 }] []).2
    { type := "A", count := 3, bytes := 10 } (by decide) (by decide)

/-! ## C4 — Boolean decoding -/

/-- C4: for every hex string accepted by the `BigInt` conversion, decoding it
as a Boolean (`System.Boolean` or bare `Boolean`) yields `"false"` exactly
when the value is zero and `"true"` otherwise. -/
theorem c4_boolean_decode (f32 f64 : Nat → String) (tn hex : String) (n : Nat)
    (hp : parseHexJs hex = some n)
    (ht : tn = "System.Boolean" ∨ tn = "Boolean") :
    parsePrimitiveValue f32 f64 tn hex = if n = 0 then "false" else "true" := by
  rcases ht with h | h <;> subst h <;> simp [parsePrimitiveValue, hp]

theorem c4_boolean_decode_witness :
    parsePrimitiveValue (fun _ => "") (fun _ => "") "System.Boolean" "01" = "true" ∧
    parsePrimitiveValue (fun _ => "") (fun _ => "") "Boolean" "00" = "false" := by
  constructor
  · rw [c4_boolean_decode (fun _ => "") (fun _ => "") "System.Boolean" "01" 1
      (by decide) (Or.inl rfl)]
    decide
  · rw [c4_boolean_decode (fun _ => "") (fun _ => "") "Boolean" "00" 0
      (by decide) (Or.inr rfl)]
    decide

/-! ## C5 — 64-bit signed decoding -/

/-- C5: for every hex string accepted by the `BigInt` conversion, decoding it
as a 64-bit signed integer (`System.Int64` or bare `Int64`) yields the
unsigned interpretation as decimal when it is at most 9223372036854775807 and
otherwise the unsigned interpretation minus 2^64 (18446744073709551616). -/
theorem c5_int64_decode (f32 f64 : Nat → String) (tn hex : String) (n : Nat)
    (hp : parseHexJs hex = some n)
    (ht : tn = "System.Int64" ∨ tn = "Int64") :
    parsePrimitiveValue f32 f64 tn hex =
      if n ≤ 9223372036854775807 then toString n
      else toString ((n : Int) - 18446744073709551616) := by
  rcases ht with h | h <;> subst h <;>
    simp only [parsePrimitiveValue, hp] <;>
    norm_num <;>
    rcases le_or_lt n 9223372036854775807 with h' | h'
  · simp [h', Nat.not_lt.mpr h']
  · simp [h', Nat.not_le.mpr h']
  · simp [h', Nat.not_lt.mpr h']
  · simp [h', Nat.not_le.mpr h']

theorem c5_int64_decode_witness :
    parsePrimitiveValue (fun _ => "") (fun _ => "") "System.Int64" "7fffffffffffffff" =
      "9223372036854775807" ∧
    parsePrimitiveValue (fun _ => "") (fun _ => "") "Int64" "ffffffffffffffff" = "-1" := by
  constructor
  · rw [c5_int64_decode (fun _ => "") (fun _ => "") "System.Int64" "7fffffffffffffff"
      9223372036854775807 (by decide) (Or.inl rfl)]
    decide
  · rw [c5_int64_decode (fun _ => "") (fun _ => "") "Int64" "ffffffffffffffff"
      18446744073709551615 (by decide) (Or.inr rfl)]
    decide

/-! ## C8 — type-roots cap at 50 objects -/

/-- C8: when the heap scan parses at least one address line, the roots result
reports the full object count but lists only the first 50 parsed objects (in
file order); objects beyond the 50th are omitted. -/
theorem c8_typeRoots_cap (output : String)
    (h : 0 < (parseHeapAddresses output).length) :
    getTypeRootsResult output =
      .result (parseHeapAddresses output).length ((parseHeapAddresses output).take 50) ∧
    ((parseHeapAddresses output).take 50).length =
      min 50 (parseHeapAddresses output).length := by
  constructor
  · simp [getTypeRootsResult, Nat.pos_iff_ne_zero.mp h]
  · exact List.length_take 50 (parseHeapAddresses output)

set_option maxRecDepth 8000 in
theorem c8_typeRoots_cap_witness :
    0 < (parseHeapAddresses heapScan51).length ∧
    (getTypeRootsResult heapScan51 =
      .result (parseHeapAddresses heapScan51).length
        ((parseHeapAddresses heapScan51).take 50) ∧
     ((parseHeapAddresses heapScan51).take 50).length =
       min 50 (parseHeapAddresses heapScan51).length) ∧
    (parseHeapAddresses heapScan51).length = 51 ∧
    ((parseHeapAddresses heapScan51).take 50).length = 50 :=
  ⟨by decide, c8_typeRoots_cap heapScan51 (by decide), by decide, by decide⟩

/-! ## C9 — short fallback lines are dropped -/

/-- C9: in the fields region, a non-blank line that fails the strict grammar
and splits into fewer than 7 whitespace tokens contributes no field record:
the parse of the remaining lines is unchanged. -/
theorem c9_short_fallback_dropped (l : String) (rest : List String)
    (hstrict : strictFieldMatch l = none)
    (hblank : ¬ jsTrim l = "")
    (hlen : (splitWsTokens l).length < 7) :
    dumpObjSplit (l :: rest) true = dumpObjSplit rest true := by
  have hfall : fallbackFieldMatch l = none := by
    unfold fallbackFieldMatch
    simp [Nat.not_le.mpr hlen]
  simp only [dumpObjSplit, hstrict, hfall]
  by_cases hf : jsTrim l == "Fields:"
  · simp [hf]
  · simp only [hf, Bool.false_eq_true, if_false]
    by_cases hc : isFieldColHeader l
    · simp [hc]
    · simp [hc, beq_eq_false_iff_ne.mpr hblank]

theorem c9_short_fallback_dropped_witness :
    strictFieldMatch "aa bb cc dd ee ff" = none ∧
    ¬ jsTrim "aa bb cc dd ee ff" = "" ∧
    (splitWsTokens "aa bb cc dd ee ff").length < 7 ∧
    dumpObjSplit ["aa bb cc dd ee ff"] true = dumpObjSplit [] true :=
  ⟨by decide, by decide, by decide,
   c9_short_fallback_dropped "aa bb cc dd ee ff" [] (by decide) (by decide) (by decide)⟩

/-! ## C2 — heap type aggregation -/

theorem lookup_aggInsert (m : List (String × JsNum × JsNum)) (ty t : String)
    (c b : JsNum) :
    List.lookup t (aggInsert m ty c b) =
      if t = ty then
        match List.lookup ty m with
        | some p => some (jsAdd p.1 c, jsAdd p.2 b)
        | none => some (c, b)
      else List.lookup t m := by
  induction m with
  | nil =>
    by_cases h : t = ty
    · subst h
      simp [aggInsert, List.lookup]
    · simp [aggInsert, List.lookup, beq_eq_false_iff_ne.mpr h, h]
  | cons hd tl ih =>
    obtain ⟨t0, c0, b0⟩ := hd
    by_cases h0 : t0 = ty
    · subst h0
      by_cases h : t = t0
      · subst h
        simp [aggInsert, List.lookup]
      · simp [aggInsert, List.lookup, beq_eq_false_iff_ne.mpr h, h,
          beq_eq_false_iff_ne.mpr (fun hh => h hh.symm)]
    · by_cases h : t = t0
      · subst h
        have hty : ¬ t = ty := fun hh => h0 hh
        simp [aggInsert, List.lookup, beq_eq_false_iff_ne.mpr h0, hty,
          beq_eq_false_iff_ne.mpr (fun hh : ty = t => h0 hh.symm)]
      · simp only [aggInsert, beq_eq_false_iff_ne.mpr h0, Bool.false_eq_true, if_false,
          List.lookup, beq_eq_false_iff_ne.mpr h, ih]
        by_cases hty : t = ty
        · subst hty
          simp [List.lookup, beq_eq_false_iff_ne.mpr (fun hh : t = t0 => h hh)]
        · simp [hty]

theorem mem_keys_aggInsert (m : List (String × JsNum × JsNum)) (ty s : String)
    (c b : JsNum) :
    s ∈ (aggInsert m ty c b).map Prod.fst ↔ s ∈ m.map Prod.fst ∨ s = ty := by
  induction m with
  | nil => simp [aggInsert]
  | cons hd tl ih =>
    obtain ⟨t0, c0, b0⟩ := hd
    by_cases h0 : t0 = ty
    · subst h0
      simp only [aggInsert, beq_self_eq_true, if_pos, List.map_cons, List.mem_cons]
      tauto
    · simp only [aggInsert, beq_eq_false_iff_ne.mpr h0, Bool.false_eq_true, if_false,
        List.map_cons, List.mem_cons, ih]
      tauto

theorem nodup_keys_aggInsert (m : List (String × JsNum × JsNum)) (ty : String)
    (c b : JsNum) (h : (m.map Prod.fst).Nodup) :
    ((aggInsert m ty c b).map Prod.fst).Nodup := by
  induction m with
  | nil => simp [aggInsert]
  | cons hd tl ih =>
    obtain ⟨t0, c0, b0⟩ := hd
    simp only [List.map_cons, List.nodup_cons] at h
    by_cases h0 : t0 = ty
    · subst h0
      simpa [aggInsert] using h
    · simp only [aggInsert, beq_eq_false_iff_ne.mpr h0, Bool.false_eq_true, if_false,
        List.map_cons, List.nodup_cons]
      refine ⟨?_, ih h.2⟩
      rw [mem_keys_aggInsert]
      rintro (hmem | hEq)
      · exact h.1 hmem
      · exact h0 hEq

/-- the running total in the aggregation map equals the `NaN`-propagating sum
of all already-processed rows with the same canonical type. -/
theorem lookup_agg_foldl (rows : List GcRow) (m : List (String × JsNum × JsNum))
    (t : String) :
    List.lookup t (rows.foldl (fun acc r => aggInsert acc r.type r.count r.bytes) m) =
      match List.lookup t m with
      | some p => some (jsAdd p.1 (jsSumCounts (rows.filter fun r => r.type == t)),
                        jsAdd p.2 (jsSumBytes (rows.filter fun r => r.type == t)))
      | none =>
        if (rows.filter fun r => r.type == t).isEmpty then none
        else some (jsSumCounts (rows.filter fun r => r.type == t),
                   jsSumBytes (rows.filter fun r => r.type == t)) := by
  induction rows generalizing m with
  | nil =>
    cases h : List.lookup t m with
    | none => simp [h]
    | some p => simp [h, jsSumCounts, jsSumBytes, jsAdd_zero_right]
  | cons r rs ih =>
    simp only [List.foldl_cons]
    rw [ih]
    rw [lookup_aggInsert]
    by_cases hrt : t = r.type
    · have hrt' : (r.type == t) = true := by
        rw [beq_iff_eq]; exact hrt.symm
      subst hrt
      simp only [if_pos rfl, List.filter_cons, hrt', if_pos]
      cases h : List.lookup r.type m with
      | none =>
        simp only [h]
        have : jsSumCounts (r :: List.filter (fun r' => r'.type == r.type) rs) =
            jsAdd r.count (jsSumCounts (List.filter (fun r' => r'.type == r.type) rs)) := rfl
        simp [jsSumCounts, jsSumBytes, List.isEmpty_cons]
      | some p =>
        simp only [h]
        simp [jsSumCounts, jsSumBytes, jsAdd_assoc]
    · have hrt' : (r.type == t) = false := by
        rw [beq_eq_false_iff_ne]
        exact fun hh => hrt hh.symm
      simp only [if_neg hrt, List.filter_cons, hrt', Bool.false_eq_true, if_false]

theorem nodup_keys_agg_foldl (rows : List GcRow) (m : List (String × JsNum × JsNum))
    (h : (m.map Prod.fst).Nodup) :
    (((rows.foldl (fun acc r => aggInsert acc r.type r.count r.bytes) m)).map
      Prod.fst).Nodup := by
  induction rows generalizing m with
  | nil => exact h
  | cons r rs ih => exact ih _ (nodup_keys_aggInsert _ _ _ _ h)

theorem lookup_of_mem_nodup {m : List (String × JsNum × JsNum)}
    {x : String × JsNum × JsNum} (hnd : (m.map Prod.fst).Nodup) (hx : x ∈ m) :
    List.lookup x.1 m = some x.2 := by
  induction m with
  | nil => exact absurd hx (List.not_mem_nil x)
  | cons hd tl ih =>
    simp only [List.map_cons, List.nodup_cons] at hnd
    rcases List.mem_cons.mp hx with h | h
    · subst h
      simp [List.lookup]
    · have hne : ¬ x.1 = hd.1 := by
        intro hEq
        exact hnd.1 (hEq ▸ List.mem_map_of_mem Prod.fst h)
      simp only [List.lookup, beq_eq_false_iff_ne.mpr hne]
      exact ih hnd.2 h

/-- C2: the aggregated snapshot has at most one entry per canonical type
name, and each entry's count and bytes are the sums of the counts and bytes
of exactly the parsed raw rows whose canonicalised type equals the entry's
type (so two size-bucket rows of one logical type merge into one entry with
summed totals). -/
theorem c2_gcdump_aggregation (output : String) :
    ((parseGcDumpOutput output).map fun e => e.type).Nodup ∧
    (∀ e ∈ parseGcDumpOutput output,
      e.count = jsSumCounts ((extractGcRows (splitLines output) false).filter
        fun r => r.type == e.type) ∧
      e.bytes = jsSumBytes ((extractGcRows (splitLines output) false).filter
        fun r => r.type == e.type)) := by
  have hagg : parseGcDumpOutput output =
      ((extractGcRows (splitLines output) false).foldl
        (fun m r => aggInsert m r.type r.count r.bytes) []).map
        (fun e => { type := e.1, count := e.2.1, bytes := e.2.2 }) := rfl
  have hnd : ((((extractGcRows (splitLines output) false)).foldl
      (fun m r => aggInsert m r.type r.count r.bytes) []).map Prod.fst).Nodup :=
    nodup_keys_agg_foldl _ [] (by simp)
  constructor
  · rw [hagg, List.map_map]
    exact hnd
  · intro e he
    rw [hagg] at he
    obtain ⟨x, hx, hconv⟩ := List.mem_map.mp he
    have hl := lookup_of_mem_nodup hnd hx
    rw [lookup_agg_foldl _ [] x.1] at hl
    simp only [List.lookup] at hl
    by_cases hemp : ((extractGcRows (splitLines output) false).filter
        fun r => r.type == x.1).isEmpty
    · rw [if_pos hemp] at hl
      exact absurd hl (by simp)
    · rw [if_neg hemp] at hl
      have hx2 := Option.some_inj.mp hl
      have htype : e.type = x.1 := by rw [← hconv]
      have hcount : e.count = x.2.1 := by rw [← hconv]
      have hbytes : e.bytes = x.2.2 := by rw [← hconv]
      rw [htype, hcount, hbytes, ← hx2]
      exact ⟨rfl, rfl⟩

theorem c2_gcdump_aggregation_witness :
    parseGcDumpOutput gcReportExample =
      [{ type := "Foo[]", count := some 3, bytes := some 3072 }] ∧
    ({ type := "Foo[]", count := some 3, bytes := some 3072 } : GcDumpEntry).count =
      jsSumCounts ((extractGcRows (splitLines gcReportExample) false).filter
        fun r => r.type == "Foo[]") ∧
    ({ type := "Foo[]", count := some 3, bytes := some 3072 } : GcDumpEntry).bytes =
      jsSumBytes ((extractGcRows (splitLines gcReportExample) false).filter
        fun r => r.type == "Foo[]") :=
  ⟨by decide,
   (c2_gcdump_aggregation gcReportExample).2
     { type := "Foo[]", count := some 3, bytes := some 3072 } (by decide)⟩

/-! ## C3 — reference-field classification -/

/-- C3 (counterexample): a parsed field row whose value-kind flag is `0` and
whose raw value `7f8d1234` is non-zero valid hex is nevertheless classified
`isReference = false`, because its (resolved) type `System.Int64` is in the
primitive set — the classification is not determined by the three conditions
of the claim alone. -/
theorem c3_isReference_counterexample :
    ((reformatDumpObjWithTypeRes (fun _ => "") (fun _ => "")
        dumpObjPrimitiveLines []).fields.map fun f => f.isReference) = [false] ∧
    ((dumpObjSplit dumpObjPrimitiveLines false).2.map fun f => f.vt) = ["0"] ∧
    ((dumpObjSplit dumpObjPrimitiveLines false).2.map fun f => f.value) = ["7f8d1234"] ∧
    isAllZeroStr "7f8d1234" = false ∧ isHexStr "7f8d1234" = true := by
  decide

/-- C3 (amended): a parsed field is classified `isReference = true` exactly
when its resolved type is NOT a recognized primitive type AND the value-kind
flag is `0` AND the raw value is not all-zero AND the raw value is
syntactically valid hex; in particular a field with flag `1` is never a
reference, and the fields of the full parse are exactly the raw rows pushed
through this classification. -/
theorem c3_isReference_amended (f32 f64 : Nat → String)
    (m : List (String × String)) (raw : RawField) :
    ((mkDumpField f32 f64 m raw).isReference = true ↔
      (isPrimitiveType (resolveFieldType m raw) = false ∧ raw.vt = "0" ∧
       isAllZeroStr raw.value = false ∧ isHexStr raw.value = true)) ∧
    (raw.vt = "1" → (mkDumpField f32 f64 m raw).isReference = false) ∧
    (∀ lines, (reformatDumpObjWithTypeRes f32 f64 lines m).fields =
      (dumpObjSplit lines false).2.map (mkDumpField f32 f64 m)) := by
  have hiff : (mkDumpField f32 f64 m raw).isReference = true ↔
      (isPrimitiveType (resolveFieldType m raw) = false ∧ raw.vt = "0" ∧
       isAllZeroStr raw.value = false ∧ isHexStr raw.value = true) := by
    simp [mkDumpField, Bool.and_eq_true, Bool.not_eq_true', beq_iff_eq, and_assoc]
  refine ⟨hiff, ?_, fun _ => rfl⟩
  intro hv
  cases h : (mkDumpField f32 f64 m raw).isReference
  · rfl
  · have := (hiff.mp h).2.1
    rw [hv] at this
    exact absurd this (by decide)

theorem c3_isReference_amended_witness :
    (mkDumpField (fun _ => "") (fun _ => "") []
      { mt := "00007f", field := "001a", offset := "8", type := "System.Object",
        vt := "0", attr := "instance", value := "7f8d1234", name := "f" }).isReference = true ∧
    (mkDumpField (fun _ => "") (fun _ => "") []
      { mt := "00007f", field := "001a", offset := "8", type := "System.Object",
        vt := "1", attr := "instance", value := "7f8d1234", name := "f" }).isReference = false :=
  ⟨(c3_isReference_amended (fun _ => "") (fun _ => "") []
      { mt := "00007f", field := "001a", offset := "8", type := "System.Object",
        vt := "0", attr := "instance", value := "7f8d1234", name := "f" }).1.mpr
      (by exact ⟨by decide, rfl, by decide, by decide⟩),
   (c3_isReference_amended (fun _ => "") (fun _ => "") []
      { mt := "00007f", field := "001a", offset := "8", type := "System.Object",
        vt := "1", attr := "instance", value := "7f8d1234", name := "f" }).2.1 rfl⟩

/-! ## C7 — CPU hot-path extraction -/

theorem parseCpuTraceLines_eq_filterMap (ls : List String) :
    parseCpuTraceLines ls = ls.filterMap cpuLineEntry := by
  induction ls with
  | nil => rfl
  | cons l t ih =>
    cases h : cpuLineEntry l <;> simp [parseCpuTraceLines, h, ih]

theorem cpuLineEntry_not_excluded {l : String} {e : CpuTraceEntry}
    (h : cpuLineEntry l = some e) :
    ¬ e.function = "(Non-Activities)" ∧ ¬ e.function = "Threads" := by
  unfold cpuLineEntry at h
  cases hm : matchCpuLine l with
  | none => rw [hm] at h; exact absurd h (by simp)
  | some g =>
    obtain ⟨g1, g2, g3⟩ := g
    rw [hm] at h
    dsimp only at h
    by_cases hx : (jsTrim g1 == "(Non-Activities)" || jsTrim g1 == "Threads") = true
    · rw [if_pos hx] at h; exact absurd h (by simp)
    · rw [if_neg hx] at h
      have he : e = { function := jsTrim g1, inclusivePercent := parseFloatQ g2,
                      exclusivePercent := parseFloatQ g3 } := (Option.some_inj.mp h).symm
      simp only [Bool.or_eq_true, beq_iff_eq, not_or] at hx
      rw [he]
      exact hx

unseal Rat.add Rat.mul Rat.inv in
/-- C7: the CPU top-N parser emits exactly one entry per line matched by the
ranked-row grammar, with the trimmed function name and the two percentages
parsed as (decimal) floats, except that rows whose function name is exactly
`(Non-Activities)` or `Threads` are excluded; in particular the sample line
`1.  Namespace.Type.Method()   33.33%   12.50%` yields function
`Namespace.Type.Method()` with inclusive 33.33 and exclusive 12.5, and an
aggregate-bucket row is dropped while genuine rows are kept. -/
theorem c7_cpu_trace (output : String) :
    parseCpuTraceOutput output = (splitLines output).filterMap cpuLineEntry ∧
    (∀ e ∈ parseCpuTraceOutput output,
      ¬ e.function = "(Non-Activities)" ∧ ¬ e.function = "Threads") ∧
    parseCpuTraceOutput "1.  Namespace.Type.Method()   33.33%   12.50%" =
      [{ function := "Namespace.Type.Method()",
         inclusivePercent := some (3333 / 100 : ℚ),
         exclusivePercent := some (25 / 2 : ℚ) }] ∧
    parseCpuTraceOutput "1.  Threads   50.00%   50.00%\n2.  Foo()   10.00%   5.00%" =
      [{ function := "Foo()", inclusivePercent := some (10 : ℚ),
         exclusivePercent := some (5 : ℚ) }] := by
  refine ⟨parseCpuTraceLines_eq_filterMap _, ?_, by decide, by decide⟩
  intro e he
  simp only [parseCpuTraceOutput, parseCpuTraceLines_eq_filterMap] at he
  obtain ⟨l, _, hl⟩ := List.mem_filterMap.mp he
  exact cpuLineEntry_not_excluded hl

unseal Rat.add Rat.mul Rat.inv in
theorem c7_cpu_trace_witness :
    ¬ ({ function := "Foo()", inclusivePercent := some (10 : ℚ),
         exclusivePercent := some (5 : ℚ) } : CpuTraceEntry).function = "(Non-Activities)" ∧
    ¬ ({ function := "Foo()", inclusivePercent := some (10 : ℚ),
         exclusivePercent := some (5 : ℚ) } : CpuTraceEntry).function = "Threads" :=
  (c7_cpu_trace "1.  Threads   50.00%   50.00%\n2.  Foo()   10.00%   5.00%").2.1
    { function := "Foo()", inclusivePercent := some (10 : ℚ),
      exclusivePercent := some (5 : ℚ) } (by decide)

/-! ## C10 — polling tick gate and monotone file size -/

theorem pollTick_lastFileSize_mono (st : PollState) (oc : Option String) :
    st.lastFileSize ≤ (pollTick st oc).1.lastFileSize := by
  match oc with
  | none => exact Nat.le_refl _
  | some c =>
    simp only [pollTick]
    by_cases h : c.length > st.lastFileSize
    · simp [h]
      exact Nat.le_of_lt h
    · simp [h]

/-- C10: a tick whose content length is not strictly greater than the
recorded file size leaves the state unchanged and emits nothing (likewise a
missing file), and the recorded file size never decreases, neither across a
single tick nor across a whole session of ticks. -/
theorem c10_poll_gate (st : PollState) (c : String) (contents : List (Option String)) :
    (c.length ≤ st.lastFileSize → pollTick st (some c) = (st, [])) ∧
    pollTick st none = (st, []) ∧
    st.lastFileSize ≤ (pollTick st (some c)).1.lastFileSize ∧
    st.lastFileSize ≤ (runPollTicks st contents).lastFileSize := by
  refine ⟨?_, rfl, pollTick_lastFileSize_mono st (some c), ?_⟩
  · intro h
    simp [pollTick, Nat.not_lt.mpr h]
  · induction contents generalizing st with
    | nil => exact Nat.le_refl _
    | cons oc rest ih =>
      exact Nat.le_trans (pollTick_lastFileSize_mono st oc) (ih _)

theorem c10_poll_gate_witness :
    ("abc".length ≤ (PollState.mk 5 0).lastFileSize ∧
      pollTick (PollState.mk 5 0) (some "abc") = (PollState.mk 5 0, [])) ∧
    pollTick (PollState.mk 5 0) none = (PollState.mk 5 0, []) ∧
    (PollState.mk 5 0).lastFileSize ≤
      (runPollTicks (PollState.mk 5 0) [some "abc", none]).lastFileSize :=
  ⟨⟨by decide, (c10_poll_gate (PollState.mk 5 0) "abc" [some "abc", none]).1 (by decide)⟩,
   (c10_poll_gate (PollState.mk 5 0) "abc" [some "abc", none]).2.1,
   (c10_poll_gate (PollState.mk 5 0) "abc" [some "abc", none]).2.2.2⟩

/-! ## C6 — partial-JSON recovery

The key structural fact is that no accepted JSON text ends with a comma,
optional whitespace, and the two closing characters `]`-brace: running the
automaton over that four-part suffix rejects from every state.  As a
consequence, contents whose only defect is the missing trailing closure have
no trailing comma for `replace(/,\s*$/, '')` to strip, and the recovery
transform appends exactly the missing two characters. -/

theorem jrun_none (cs : List Char) : jrun none cs = none := by
  cases cs <;> rfl

theorem jrun_append (a b : List Char) (ost : Option JState) :
    jrun ost (a ++ b) = jrun (jrun ost a) b := by
  induction a generalizing ost with
  | nil =>
    cases ost with
    | none => simp [jrun_none]
    | some st => rfl
  | cons c t ih =>
    cases ost with
    | none => simp [jrun_none]
    | some st =>
      show jrun (jstep st c) (t ++ b) = jrun (jrun (jstep st c) t) b
      exact ih (jstep st c)

theorem run_step_some {st st' : JState} {c : Char} (h : jstep st c = some st')
    (rest : List Char) :
    jrun (some st) (c :: rest) = jrun (some st') rest := by
  show jrun (jstep st c) rest = _
  rw [h]

theorem bind_jfinish_step_none {st : JState} {c : Char} (h : jstep st c = none)
    (rest : List Char) :
    (jrun (some st) (c :: rest)).bind jfinish = none := by
  show (jrun (jstep st c) rest).bind jfinish = none
  rw [h, jrun_none]
  rfl

theorem bind_jfinish_jrun_none (rest : List Char) :
    (jrun (none : Option JState) rest).bind jfinish = none := by
  rw [jrun_none]
  rfl

/-- after a comma in an array, a whitespace run followed by the two closing
characters is rejected. -/
theorem wsArr_close : ∀ (w : List Char), (∀ c ∈ w, isJsWs c = true) →
    ∀ stack : List JFrame,
    (jrun (some ⟨.vArrComma, stack⟩) (w ++ [']', rbraceChar])).bind jfinish = none := by
  intro w
  induction w with
  | nil => intro _ stack; rfl
  | cons c t ih =>
    intro hw stack
    have ht : ∀ x ∈ t, isJsWs x = true := fun x hx => hw x (List.mem_cons_of_mem c hx)
    rcases jsWs_cases (hw c (List.mem_cons_self c t)) with h|h|h|h|h|h <;> subst h
    · exact ih ht stack
    · exact ih ht stack
    · exact ih ht stack
    · exact ih ht stack
    · exact bind_jfinish_jrun_none (t ++ [']', rbraceChar])
    · exact bind_jfinish_jrun_none (t ++ [']', rbraceChar])

/-- after a comma in an object, a whitespace run followed by the two closing
characters is rejected. -/
theorem wsObj_close : ∀ (w : List Char), (∀ c ∈ w, isJsWs c = true) →
    ∀ stack : List JFrame,
    (jrun (some ⟨.oComma, stack⟩) (w ++ [']', rbraceChar])).bind jfinish = none := by
  intro w
  induction w with
  | nil => intro _ stack; rfl
  | cons c t ih =>
    intro hw stack
    have ht : ∀ x ∈ t, isJsWs x = true := fun x hx => hw x (List.mem_cons_of_mem c hx)
    rcases jsWs_cases (hw c (List.mem_cons_self c t)) with h|h|h|h|h|h <;> subst h
    · exact ih ht stack
    · exact ih ht stack
    · exact ih ht stack
    · exact ih ht stack
    · exact bind_jfinish_jrun_none (t ++ [']', rbraceChar])
    · exact bind_jfinish_jrun_none (t ++ [']', rbraceChar])

/-- inside a string body the suffix may survive, but the automaton is left
inside the string and cannot accept. -/
theorem wsStr_close : ∀ (w : List Char), (∀ c ∈ w, isJsWs c = true) →
    ∀ (isKey : Bool) (acc : List Char) (stack : List JFrame),
    (jrun (some ⟨.sIn isKey acc, stack⟩) (w ++ [']', rbraceChar])).bind jfinish = none := by
  intro w
  induction w with
  | nil => intro _ k acc stack; rfl
  | cons c t ih =>
    intro hw k acc stack
    have ht : ∀ x ∈ t, isJsWs x = true := fun x hx => hw x (List.mem_cons_of_mem c hx)
    rcases jsWs_cases (hw c (List.mem_cons_self c t)) with h|h|h|h|h|h <;> subst h
    · exact ih ht k (' ' :: acc) stack
    · exact bind_jfinish_jrun_none (t ++ [']', rbraceChar])
    · exact bind_jfinish_jrun_none (t ++ [']', rbraceChar])
    · exact bind_jfinish_jrun_none (t ++ [']', rbraceChar])
    · exact bind_jfinish_jrun_none (t ++ [']', rbraceChar])
    · exact bind_jfinish_jrun_none (t ++ [']', rbraceChar])

/-- from any automaton state, a comma followed by whitespace and by the two
closing characters is rejected. -/
theorem jrun_comma_close (ost : Option JState) (w : List Char)
    (hw : ∀ c ∈ w, isJsWs c = true) :
    (jrun ost (',' :: (w ++ [']', rbraceChar]))).bind jfinish = none := by
  cases ost with
  | none => rw [jrun_none]; rfl
  | some st =>
    obtain ⟨mode, stack⟩ := st
    cases mode with
    | vTop => exact bind_jfinish_jrun_none (w ++ [']', rbraceChar])
    | vArrFresh => exact bind_jfinish_jrun_none (w ++ [']', rbraceChar])
    | vArrComma => exact bind_jfinish_jrun_none (w ++ [']', rbraceChar])
    | vColon => exact bind_jfinish_jrun_none (w ++ [']', rbraceChar])
    | doneIn =>
      match stack with
      | [] => exact bind_jfinish_jrun_none (w ++ [']', rbraceChar])
      | .arrF acc :: rest =>
        exact wsArr_close w hw _
      | .objF acc key :: rest =>
        exact wsObj_close w hw _
    | doneTop v => exact bind_jfinish_jrun_none (w ++ [']', rbraceChar])
    | oFresh => exact bind_jfinish_jrun_none (w ++ [']', rbraceChar])
    | oComma => exact bind_jfinish_jrun_none (w ++ [']', rbraceChar])
    | oColon key => exact bind_jfinish_jrun_none (w ++ [']', rbraceChar])
    | sIn k acc =>
      exact wsStr_close w hw k (',' :: acc) stack
    | sEsc k acc => exact bind_jfinish_jrun_none (w ++ [']', rbraceChar])
    | sHex k acc pend need => exact bind_jfinish_jrun_none (w ++ [']', rbraceChar])
    | nMinus acc => exact bind_jfinish_jrun_none (w ++ [']', rbraceChar])
    | nZero acc =>
      match stack with
      | [] => exact bind_jfinish_jrun_none (w ++ [']', rbraceChar])
      | .arrF a :: rest => exact wsArr_close w hw _
      | .objF a key :: rest => exact wsObj_close w hw _
    | nInt acc =>
      match stack with
      | [] => exact bind_jfinish_jrun_none (w ++ [']', rbraceChar])
      | .arrF a :: rest => exact wsArr_close w hw _
      | .objF a key :: rest => exact wsObj_close w hw _
    | nDot acc => exact bind_jfinish_jrun_none (w ++ [']', rbraceChar])
    | nFrac acc =>
      match stack with
      | [] => exact bind_jfinish_jrun_none (w ++ [']', rbraceChar])
      | .arrF a :: rest => exact wsArr_close w hw _
      | .objF a key :: rest => exact wsObj_close w hw _
    | nExp acc => exact bind_jfinish_jrun_none (w ++ [']', rbraceChar])
    | nExpS acc => exact bind_jfinish_jrun_none (w ++ [']', rbraceChar])
    | nExpD acc =>
      match stack with
      | [] => exact bind_jfinish_jrun_none (w ++ [']', rbraceChar])
      | .arrF a :: rest => exact wsArr_close w hw _
      | .objF a key :: rest => exact wsObj_close w hw _
    | lT1 => exact bind_jfinish_jrun_none (w ++ [']', rbraceChar])
    | lT2 => exact bind_jfinish_jrun_none (w ++ [']', rbraceChar])
    | lT3 => exact bind_jfinish_jrun_none (w ++ [']', rbraceChar])
    | lF1 => exact bind_jfinish_jrun_none (w ++ [']', rbraceChar])
    | lF2 => exact bind_jfinish_jrun_none (w ++ [']', rbraceChar])
    | lF3 => exact bind_jfinish_jrun_none (w ++ [']', rbraceChar])
    | lF4 => exact bind_jfinish_jrun_none (w ++ [']', rbraceChar])
    | lN1 => exact bind_jfinish_jrun_none (w ++ [']', rbraceChar])
    | lN2 => exact bind_jfinish_jrun_none (w ++ [']', rbraceChar])
    | lN3 => exact bind_jfinish_jrun_none (w ++ [']', rbraceChar])

/-- no JSON text of the shape `u , whitespace ] brace` parses. -/
theorem jsonParse_comma_junk (u w : List Char) (hw : ∀ c ∈ w, isJsWs c = true) :
    (jrun (some ⟨.vTop, []⟩) (u ++ (',' :: (w ++ [']', rbraceChar])))).bind jfinish =
      none := by
  rw [jrun_append]
  exact jrun_comma_close _ w hw

/-- a content whose only defect is the missing trailing closure has nothing
for the trailing-comma strip to remove. -/
theorem stripComma_self_of_closed (s : String)
    (h : (jsonParse (s ++ "]\x7d")).isSome = true) :
    stripTrailingCommaWs s = s := by
  by_cases hcond : ((s.data.reverse.dropWhile isJsWs).headD ' ' == ',') = true
  · exfalso
    cases hr : s.data.reverse.dropWhile isJsWs with
    | nil => rw [hr] at hcond; exact absurd hcond (by decide)
    | cons c rest =>
      have hc : c = ',' := by
        rw [hr] at hcond
        simpa using hcond
      subst hc
      have hsplit : s.data.reverse =
          s.data.reverse.takeWhile isJsWs ++ (',' :: rest) := by
        conv_lhs => rw [← List.takeWhile_append_dropWhile (p := isJsWs) (l := s.data.reverse)]
        rw [hr]
      have hdata : s.data =
          rest.reverse ++ ',' :: (s.data.reverse.takeWhile isJsWs).reverse := by
        have h2 := congrArg List.reverse hsplit
        rw [List.reverse_reverse] at h2
        conv_lhs => rw [h2]
        simp [List.reverse_append]
      have hws : ∀ x ∈ (s.data.reverse.takeWhile isJsWs).reverse, isJsWs x = true := by
        intro x hx
        exact List.mem_takeWhile_imp (List.mem_reverse.mp hx)
      have hth : (s ++ "]\x7d").data =
          rest.reverse ++
            (',' :: ((s.data.reverse.takeWhile isJsWs).reverse ++ [']', rbraceChar])) := by
        have hcl : ("]\x7d" : String).data = [']', rbraceChar] := by decide
        rw [String.data_append, hcl]
        conv_lhs => rw [hdata]
        simp
      have hnone : jsonParse (s ++ "]\x7d") = none := by
        show (jrun (some ⟨.vTop, []⟩) ((s ++ "]\x7d").data)).bind jfinish = none
        rw [hth]
        exact jsonParse_comma_junk _ _ hws
      rw [hnone] at h
      exact absurd h (by decide)
  · simp only [stripTrailingCommaWs]
    rw [if_neg hcond]

/-- C6 (counterexample): a counter-file content whose only defect is the
missing trailing `]`-brace closure (appending it yields a parseable
document), but whose trimmed text already happens to end with those two
characters: the code skips the transform, the parse fails, and the tick is
skipped — the recovery does not produce a parseable string for this content. -/
theorem c6_recovery_counterexample :
    (jsonParse (counterFileTruncated ++ "]\x7d")).isSome = true ∧
    recoverCounterJson counterFileTruncated = counterFileTruncated ∧
    (jsonParse (recoverCounterJson counterFileTruncated)).isSome = false ∧
    parseAndUpdateChart counterFileTruncated 0 = ([], 0) := by
  decide

/-- C6 (amended): for every counter-file content whose only defect is the
missing trailing `]`-brace closing sequence AND whose trimmed text does not
already end with that closing sequence, the recovery transform (strip any
trailing comma, append the missing closing characters) produces a string that
parses successfully as JSON; and whenever parsing of the recovered string
fails, the tick is skipped silently — no samples are emitted, no error is
produced and the event count is unchanged. -/
theorem c6_recovery_amended (content : String) (n : Nat) :
    ((jsonParse (content ++ "]\x7d")).isSome = true →
      jsEndsWith (jsTrim content) "]\x7d" = false →
      (jsonParse (recoverCounterJson content)).isSome = true) ∧
    ((jsonParse (recoverCounterJson content)).isSome = false →
      parseAndUpdateChart content n = ([], n)) := by
  constructor
  · intro h1 h2
    unfold recoverCounterJson
    simp only [h2, Bool.false_eq_true, if_false]
    rw [stripComma_self_of_closed content h1]
    exact h1
  · intro hfail
    have hnone : jsonParse (recoverCounterJson content) = none := by
      cases hj : jsonParse (recoverCounterJson content) with
      | none => rfl
      | some v => rw [hj] at hfail; simp at hfail
    unfold parseAndUpdateChart
    rw [hnone]

theorem c6_recovery_amended_witness :
    ((jsonParse ("\x7b\"Events\":[1,2" ++ "]\x7d")).isSome = true ∧
     jsEndsWith (jsTrim "\x7b\"Events\":[1,2") "]\x7d" = false ∧
     (jsonParse (recoverCounterJson "\x7b\"Events\":[1,2")).isSome = true) ∧
    ((jsonParse (recoverCounterJson counterFileTruncated)).isSome = false ∧
     parseAndUpdateChart counterFileTruncated 0 = ([], 0)) :=
  ⟨⟨by decide, by decide,
    (c6_recovery_amended "\x7b\"Events\":[1,2" 0).1 (by decide) (by decide)⟩,
   ⟨by decide, (c6_recovery_amended counterFileTruncated 0).2 (by decide)⟩⟩

end DotnetProfiler
